import Mathlib

/-!
Verification of the semver constraint-algebra library (Masterminds/semver
fork with `Intersection` / `IsSubset`).  The definitions below are a shallow
embedding of the Go source: `version.go` / the version chunk of `range.go`
(Version, Compare, comparePrerelease, comparePrePart, the mutating
incrementers), `constraints.go` (constraint, the per-operator check
functions, Constraints, Check, rendering) and `intersection.go`
(Intersection, IsSubset, canonicalise, expand, simplify, bounds, better,
satisfiesAll, ...).  Machine integers (Go int64) are modelled as `Int`;
no operation in scope can overflow 64 bits, so no wrap-around is applied.
Go strings are Lean `String`s; Go's byte-wise string comparison agrees with
code-point-wise comparison on valid UTF-8, which is what `strLt` implements.
-/

/-- Version represents a single semantic version (struct Version of
version.go: major, minor, patch int64; pre, metadata, original string). -/
structure Version where
  major : Int
  minor : Int
  patch : Int
  pre : String
  metadata : String
  original : String
deriving DecidableEq

/-- compareSegment of version.go: three-way comparison of two int64s. -/
def compareSegment (v o : Int) : Int :=
  if v < o then -1 else if v > o then 1 else 0

/-- Lexicographic order on char lists by code point.  Models Go's byte-wise
string `<`: on valid UTF-8 (all Lean strings) byte order and code-point
order coincide. -/
def charListLt : List Char → List Char → Bool
  | _, [] => false
  | [], _ :: _ => true
  | a :: as, b :: bs =>
    if a.toNat < b.toNat then true
    else if b.toNat < a.toNat then false
    else charListLt as bs

/-- Go string `s < t` (byte-wise). -/
def strLt (s t : String) : Bool := charListLt s.data t.data

/-- Go string `s > t`. -/
def strGt (s t : String) : Bool := strLt t s

/-- All characters are decimal digits and the list is non-empty. -/
def decDigits (l : List Char) : Bool := !l.isEmpty && l.all (fun c => c.isDigit)

/-- Numeric value of a digit list. -/
def digitsVal (l : List Char) : Nat := l.foldl (fun a c => a * 10 + (c.toNat - 48)) 0

/-- Whether Go's strconv.ParseInt(s, 10, 64) succeeds: optional sign, a
non-empty run of decimal digits, value within int64 range.  Only the
success / failure of ParseInt is observable in comparePrePart. -/
def goParseInt64Ok (s : String) : Bool :=
  match s.data with
  | [] => false
  | c :: rest =>
    if c = '+' then decDigits rest && decide (digitsVal rest ≤ 9223372036854775807)
    else if c = '-' then decDigits rest && decide (digitsVal rest ≤ 9223372036854775808)
    else decDigits (c :: rest) && decide (digitsVal (c :: rest) ≤ 9223372036854775807)

/-- comparePrePart of the version chunk of range.go.  Note: when both parts
are non-empty and different the source compares them with Go string `>`
(byte-wise lexicographic); ParseInt is consulted only when one side is the
empty placeholder. -/
def comparePrePart (s o : String) : Int :=
  if s = o then 0
  else if o = "" then (if goParseInt64Ok s then 1 else -1)
  else if s = "" then (if goParseInt64Ok o then -1 else 1)
  else if strGt s o then 1 else -1

/-- The tail of the comparePrerelease loop once the left identifier list is
exhausted: each remaining right identifier is compared against the ""
placeholder. -/
def comparePrePartsNil : List String → Int
  | [] => 0
  | o :: os =>
    let d := comparePrePart "" o
    if d ≠ 0 then d else comparePrePartsNil os

/-- The loop of comparePrerelease: walk both identifier lists to the longer
length, using "" as the placeholder for a missing identifier. -/
def comparePreParts : List String → List String → Int
  | [], os => comparePrePartsNil os
  | s :: ss, [] =>
    let d := comparePrePart s ""
    if d ≠ 0 then d else comparePreParts ss []
  | s :: ss, o :: os =>
    let d := comparePrePart s o
    if d ≠ 0 then d else comparePreParts ss os

/-- Splitting on '.' over the character list, with an accumulator for the
current identifier.  Same behaviour as Go's strings.Split(s, "."): the
empty string yields [""], a trailing dot yields a trailing "". -/
def splitDotsAux : List Char → List Char → List String
  | [], acc => [String.mk acc.reverse]
  | c :: rest, acc =>
    if c = '.' then String.mk acc.reverse :: splitDotsAux rest []
    else splitDotsAux rest (c :: acc)

/-- strings.Split(s, ".") of the Go source. -/
def splitDots (s : String) : List String :=
  splitDotsAux s.data []

/-- comparePrerelease of the version chunk of range.go: split both
prerelease strings on "." and compare part-wise. -/
def comparePrerelease (v o : String) : Int :=
  comparePreParts (splitDots v) (splitDots o)

/-- Version.Compare of the version chunk of range.go.  The Go source binds
each segment comparison to a local and returns it when non-zero; the
if-chain below is the same control flow. -/
def Version.Compare (v o : Version) : Int :=
  if compareSegment v.major o.major ≠ 0 then compareSegment v.major o.major
  else if compareSegment v.minor o.minor ≠ 0 then compareSegment v.minor o.minor
  else if compareSegment v.patch o.patch ≠ 0 then compareSegment v.patch o.patch
  else if v.pre = "" ∧ o.pre = "" then 0
  else if v.pre = "" then 1
  else if o.pre = "" then -1
  else comparePrerelease v.pre o.pre

/-- Version.LessThan. -/
def Version.LessThan (v o : Version) : Bool := decide (Version.Compare v o < 0)

/-- Version.GreaterThan. -/
def Version.GreaterThan (v o : Version) : Bool := decide (Version.Compare v o > 0)

/-- Version.Equal: equality up to build metadata (Compare == 0). -/
def Version.Equal (v o : Version) : Bool := decide (Version.Compare v o = 0)

/-- Version.String of version.go: MAJOR.MINOR.PATCH, then -PRE and +META
when present.  The original field is not consulted. -/
def Version.String (v : Version) : String :=
  toString v.major ++ "." ++ toString v.minor ++ "." ++ toString v.patch
  ++ (if v.pre = "" then "" else "-" ++ v.pre)
  ++ (if v.metadata = "" then "" else "+" ++ v.metadata)

/-- IncPatch of the version chunk of range.go (lines 663-667): the Go method
mutates its receiver (clears the prerelease, adds 1 to patch) and returns
the constant true.  Modelled as the post-state of the receiver. -/
def Version.IncPatchMut (v : Version) : Version :=
  { v with pre := "", patch := v.patch + 1 }

/-- IncMinor of the version chunk of range.go: mutates the receiver
(clears prerelease, zeroes patch, adds 1 to minor), returns true. -/
def Version.IncMinorMut (v : Version) : Version :=
  { v with pre := "", patch := 0, minor := v.minor + 1 }

/-- IncMajor of the version chunk of range.go: mutates the receiver
(clears prerelease, zeroes minor and patch, adds 1 to major), returns
true. -/
def Version.IncMajorMut (v : Version) : Version :=
  { v with pre := "", patch := 0, minor := 0, major := v.major + 1 }

/-- Modelled from the spec: the value-returning Version.IncMajor that
intersection.go and the expander call (`hi = c.con.IncMajor()`).  That
method is part of this repository but missing from src (src only holds the
older mutating bool-returning incrementers); per spec section 4.6
"inc_major clears prerelease, zeros minor and patch, adds 1 to major".
Build metadata and original are cleared; neither is read by any comparison
or rendering of the produced pivot other than Version.String, which ignores
original and prints metadata only when non-empty. -/
def Version.IncMajor (v : Version) : Version :=
  ⟨v.major + 1, 0, 0, "", "", ""⟩

/-- Modelled from the spec: value-returning Version.IncMinor (see
Version.IncMajor); "inc_minor clears prerelease, zeros patch, adds 1 to
minor". -/
def Version.IncMinor (v : Version) : Version :=
  ⟨v.major, v.minor + 1, 0, "", "", ""⟩

/-- Modelled from the spec: value-returning Version.IncPatch (see
Version.IncMajor); "inc_patch clears prerelease and adds 1 to patch". -/
def Version.IncPatch (v : Version) : Version :=
  ⟨v.major, v.minor, v.patch + 1, "", "", ""⟩

/-- An individual constraint (struct constraint of constraints.go): the
pivot version `con`, the original textual pivot `orig`, the operator
`origfunc`, and the dirtiness flags. -/
structure constraint where
  con : Version
  orig : String
  origfunc : String
  minorDirty : Bool
  dirty : Bool
  patchDirty : Bool
deriving DecidableEq

/-- Outcome of a single constraint check.  The Go check functions return
(bool, error); only the identity of the prerelease-gate error is ever
distinguished, so outcomes are: ok (true, nil), preErr (false with the
"prerelease version, constraint requires release version" error), err
(false with any other error), nofunc (the operator is not in the
constraintOps map, on which the Go code would call a nil function and
panic; unreachable for parser-produced atoms). -/
inductive CRes where
  | ok : CRes
  | preErr : CRes
  | err : CRes
  | nofunc : CRes
deriving DecidableEq

/-- The prerelease gate shared by the check functions.  The first two
conjuncts are verbatim from the source (`v.Prerelease() != "" &&
c.con.Prerelease() == ""`).  Modelled from the spec: the expression-level
include_prerelease flag, which the repository threads into the checks but
whose Constraints field is missing from src (only intersection.go and the
tests reference it), lifts the gate when true (spec section 4.4); with
incPre = false this is exactly the shipped code. -/
def preGate (incPre : Bool) (v : Version) (c : constraint) : Prop :=
  v.pre ≠ "" ∧ c.con.pre = "" ∧ incPre = false

instance (incPre : Bool) (v : Version) (c : constraint) : Decidable (preGate incPre v c) := by
  unfold preGate
  infer_instance

/-- constraintNotEqual of constraints.go.  The gate applies only in the
dirty branch; the non-dirty branch goes straight to the equality test. -/
def constraintNotEqual (incPre : Bool) (v : Version) (c : constraint) : CRes :=
  if c.dirty then
    if preGate incPre v c then .preErr
    else if c.con.major ≠ v.major then .ok
    else if c.con.minor ≠ v.minor ∧ ¬c.minorDirty then .ok
    else if c.minorDirty then .err
    else if c.con.patch ≠ v.patch ∧ ¬c.patchDirty then .ok
    else if c.patchDirty then
      if v.pre ≠ "" ∨ c.con.pre ≠ "" then
        if comparePrerelease v.pre c.con.pre ≠ 0 then .ok else .err
      else .err
    else if Version.Equal v c.con then .err else .ok
  else if Version.Equal v c.con then .err else .ok

/-- constraintGreaterThan of constraints.go. -/
def constraintGreaterThan (incPre : Bool) (v : Version) (c : constraint) : CRes :=
  if preGate incPre v c then .preErr
  else if ¬c.dirty then (if Version.Compare v c.con = 1 then .ok else .err)
  else if v.major > c.con.major then .ok
  else if v.major < c.con.major then .err
  else if c.minorDirty then .err
  else if c.patchDirty then (if v.minor > c.con.minor then .ok else .err)
  else if Version.Compare v c.con = 1 then .ok else .err

/-- constraintLessThan of constraints.go. -/
def constraintLessThan (incPre : Bool) (v : Version) (c : constraint) : CRes :=
  if preGate incPre v c then .preErr
  else if Version.Compare v c.con < 0 then .ok else .err

/-- constraintGreaterThanEqual of constraints.go. -/
def constraintGreaterThanEqual (incPre : Bool) (v : Version) (c : constraint) : CRes :=
  if preGate incPre v c then .preErr
  else if 0 ≤ Version.Compare v c.con then .ok else .err

/-- constraintLessThanEqual of constraints.go. -/
def constraintLessThanEqual (incPre : Bool) (v : Version) (c : constraint) : CRes :=
  if preGate incPre v c then .preErr
  else if ¬c.dirty then (if Version.Compare v c.con ≤ 0 then .ok else .err)
  else if v.major > c.con.major then .err
  else if v.major = c.con.major ∧ v.minor > c.con.minor ∧ ¬c.minorDirty then .err
  else .ok

/-- constraintTilde of constraints.go, including the `~0.0.0` special case
that turns the constraint into `>= 0.0.0`. -/
def constraintTilde (incPre : Bool) (v : Version) (c : constraint) : CRes :=
  if preGate incPre v c then .preErr
  else if Version.LessThan v c.con then .err
  else if c.con.major = 0 ∧ c.con.minor = 0 ∧ c.con.patch = 0 ∧
          ¬c.minorDirty ∧ ¬c.patchDirty then .ok
  else if v.major ≠ c.con.major then .err
  else if v.minor ≠ c.con.minor ∧ ¬c.minorDirty then .err
  else .ok

/-- constraintTildeOrEqual of constraints.go: dirty pivots delegate to
tilde semantics, otherwise straight equality. -/
def constraintTildeOrEqual (incPre : Bool) (v : Version) (c : constraint) : CRes :=
  if preGate incPre v c then .preErr
  else if c.dirty then constraintTilde incPre v c
  else if Version.Equal v c.con then .ok else .err

/-- constraintCaret of constraints.go. -/
def constraintCaret (incPre : Bool) (v : Version) (c : constraint) : CRes :=
  if preGate incPre v c then .preErr
  else if Version.LessThan v c.con then .err
  else if c.con.major > 0 ∨ c.minorDirty then
    (if v.major = c.con.major then .ok else .err)
  else if c.con.major = 0 ∧ v.major > 0 then .err
  else if c.con.minor > 0 ∨ c.patchDirty then
    (if v.minor = c.con.minor then .ok else .err)
  else if c.con.patch = v.patch then .ok else .err

/-- constraint.check: dispatch through the constraintOps table of
constraints.go.  An operator outside the table yields nofunc (the Go code
would panic on the nil map entry). -/
def checkAtom (incPre : Bool) (c : constraint) (v : Version) : CRes :=
  if c.origfunc = "" ∨ c.origfunc = "=" then constraintTildeOrEqual incPre v c
  else if c.origfunc = "!=" then constraintNotEqual incPre v c
  else if c.origfunc = ">" then constraintGreaterThan incPre v c
  else if c.origfunc = "<" then constraintLessThan incPre v c
  else if c.origfunc = ">=" ∨ c.origfunc = "=>" then constraintGreaterThanEqual incPre v c
  else if c.origfunc = "<=" ∨ c.origfunc = "=<" then constraintLessThanEqual incPre v c
  else if c.origfunc = "~" ∨ c.origfunc = "~>" then constraintTilde incPre v c
  else if c.origfunc = "^" then constraintCaret incPre v c
  else .nofunc

/-- The boolean component of constraint.check, as consumed by
Constraints.Check (`if check, _ := c.check(v); !check`). -/
def atomOK (incPre : Bool) (c : constraint) (v : Version) : Bool :=
  match checkAtom incPre c v with
  | .ok => true
  | _ => false

/-- Constraints of constraints.go: a disjunction (outer list) of
conjunctive groups (inner lists) of constraints.  The IncludePrerelease
field is modelled from the spec: it is referenced by intersection.go and
the tests but its declaration is missing from src. -/
structure Constraints where
  constraints : List (List constraint)
  IncludePrerelease : Bool
deriving DecidableEq

/-- Constraints.Check: a version satisfies the expression iff some group's
atoms all pass.  The enclosing expression's IncludePrerelease is handed to
the atom checks (spec-modelled; with the flag false this is the shipped
Check verbatim). -/
def Constraints.Check (cs : Constraints) (v : Version) : Bool :=
  cs.constraints.any (fun g => g.all (fun c => atomOK cs.IncludePrerelease c v))

/-- constraint.string of constraints.go: operator followed by the original
pivot text. -/
def constraint.string (c : constraint) : String :=
  c.origfunc ++ c.orig

/-- One group of Constraints.String: atoms joined by single spaces. -/
def groupString : List constraint → String
  | [] => ""
  | [c] => c.string
  | c :: rest => c.string ++ " " ++ groupString rest

/-- The join of Constraints.String: groups joined by " || ". -/
def joinGroups : List (List constraint) → String
  | [] => ""
  | [g] => groupString g
  | g :: rest => groupString g ++ " || " ++ joinGroups rest

/-- Constraints.String of constraints.go. -/
def Constraints.String (cs : Constraints) : String :=
  joinGroups cs.constraints

/-- groupKey of intersection.go: each atom's string followed by a space,
concatenated. -/
def groupKey (cs : List constraint) : String :=
  cs.foldl (fun sb c => sb ++ c.string ++ " ") ""

/-- splitExact of intersection.go: partition a group into exact atoms
(bare or "=") and range atoms, preserving order. -/
def splitExact (cs : List constraint) : List constraint × List constraint :=
  cs.partition (fun c => c.origfunc = "" ∨ c.origfunc = "=")

/-- exactIntersection of intersection.go: for every pair of Compare-equal
exact pivots, keep the atom of the first operand (duplicates preserved,
as in the nested Go loops). -/
def exactIntersection (a b : List constraint) : List constraint :=
  a.flatMap (fun ea => b.filterMap (fun eb => if Version.Equal ea.con eb.con then some ea else none))

/-- The per-atom numeric test inside satisfiesAll's switch; operators other
than the four relational ones impose no condition. -/
def satisfiesNumeric (c : constraint) (v : Version) : Bool :=
  if c.origfunc = ">" then decide (Version.Compare v c.con > 0)
  else if c.origfunc = ">=" then decide (0 ≤ Version.Compare v c.con)
  else if c.origfunc = "<" then decide (Version.Compare v c.con < 0)
  else if c.origfunc = "<=" then decide (Version.Compare v c.con ≤ 0)
  else true

/-- satisfiesAll of intersection.go: first lift incPre when any pivot in
the group carries a prerelease, then require, per atom, that v is not a
gated prerelease and that the relational comparison holds. -/
def satisfiesAll (v : Version) (cs : List constraint) (incPre : Bool) : Bool :=
  let incPre := incPre || cs.any (fun c => c.con.pre ≠ "")
  cs.all (fun c => if v.pre ≠ "" ∧ incPre = false then false else satisfiesNumeric c v)

/-- filterExact of intersection.go. -/
def filterExact (exact cs : List constraint) (incPre : Bool) : List constraint :=
  exact.filter (fun e => satisfiesAll e.con cs incPre)

/-- better of intersection.go.  The cand parameter is never nil at any call
site, so it is modelled as a plain constraint; the nil-cand early return is
therefore unrepresentable. -/
def better (cur : Option constraint) (cand : constraint) (dir : Int) : Bool :=
  match cur with
  | none => true
  | some cu =>
    if Version.Compare cand.con cu.con ≠ 0 then
      decide (Version.Compare cand.con cu.con * dir > 0)
    else if dir > 0 then decide (cu.origfunc = ">=" ∧ cand.origfunc = ">")
    else decide (cu.origfunc = "<=" ∧ cand.origfunc = "<")

/-- The loop of bounds of intersection.go. -/
def boundsLoop : List constraint → Option constraint → Option constraint →
    Option constraint × Option constraint
  | [], lo, hi => (lo, hi)
  | c :: rest, lo, hi =>
    if c.origfunc = ">" ∨ c.origfunc = ">=" then
      boundsLoop rest (if better lo c 1 then some c else lo) hi
    else if c.origfunc = "<" ∨ c.origfunc = "<=" then
      boundsLoop rest lo (if better hi c (-1) then some c else hi)
    else boundsLoop rest lo hi

/-- bounds of intersection.go: tightest lower and upper bound of a group. -/
def bounds (cs : List constraint) : Option constraint × Option constraint :=
  boundsLoop cs none none

/-- simplify of intersection.go: groups of at most one atom pass through;
larger groups are reduced to their bounds (dropping every atom that is
neither the selected lower nor the selected upper bound). -/
def simplify (cs : List constraint) : List constraint :=
  if cs.length ≤ 1 then cs
  else
    match bounds cs with
    | (lo, hi) => lo.toList ++ hi.toList

/-- isValid of intersection.go: empty groups are invalid; a group with
both bounds is invalid when lo > hi or when lo == hi with a non-inclusive
endpoint. -/
def isValid (cs : List constraint) : Bool :=
  if cs = [] then false
  else
    match bounds cs with
    | (some lo, some hi) =>
      if Version.Compare lo.con hi.con > 0 ∨
         (Version.Compare lo.con hi.con = 0 ∧
          (lo.origfunc ≠ ">=" ∨ hi.origfunc ≠ "<=")) then false
      else true
    | _ => true

/-- clone of intersection.go: same pivot, orig re-rendered from the pivot,
the given operator, all dirtiness flags cleared (the Go struct literal
leaves them at their zero value). -/
def clone (c : constraint) (op : String) : constraint :=
  ⟨c.con, c.con.String, op, false, false, false⟩

/-- upperConstraint of intersection.go: a "<" atom at the given version. -/
def upperConstraint (v : Version) : constraint :=
  ⟨v, v.String, "<", false, false, false⟩

/-- createRange of intersection.go; the Go version takes the upper bound as
a closure, evaluated exactly once, so it is passed here by value. -/
def createRange (c : constraint) (upper : Version) : List constraint :=
  [clone c ">=", upperConstraint upper]

/-- expandWildcard of intersection.go. -/
def expandWildcard (c : constraint) : List constraint :=
  let lo := clone c ">="
  if c.minorDirty then [lo, upperConstraint (Version.IncMajor c.con)]
  else if c.patchDirty then [lo, upperConstraint (Version.IncMinor c.con)]
  else [lo]

/-- expandConstraint of intersection.go. -/
def expandConstraint (c : constraint) : List constraint :=
  if c.origfunc = "^" then
    createRange c (if c.con.major > 0 then Version.IncMajor c.con else Version.IncMinor c.con)
  else if c.origfunc = "~" ∨ c.origfunc = "~>" then
    createRange c (if c.minorDirty then Version.IncMajor c.con else Version.IncMinor c.con)
  else if (c.origfunc = "" ∨ c.origfunc = "=") ∧ c.dirty then
    expandWildcard c
  else if c.origfunc = "<=" ∧ c.dirty then
    [upperConstraint (if c.minorDirty then Version.IncMajor c.con else Version.IncMinor c.con)]
  else [c]

/-- expand of intersection.go. -/
def expand (cs : List constraint) : List constraint :=
  cs.flatMap expandConstraint

/-- intersect of intersection.go. -/
def intersect (a b : List constraint) (incPre : Bool) : List constraint :=
  let ea := (splitExact a).1
  let ra := (splitExact a).2
  let eb := (splitExact b).1
  let rb := (splitExact b).2
  if ra = [] ∧ rb = [] then exactIntersection ea eb
  else if ra = [] then filterExact ea b incPre
  else if rb = [] then filterExact eb a incPre
  else simplify (a ++ b)

/-- The fold of canonicalise of intersection.go: expand and simplify each
group, keep it when valid and its key is unseen (the Go code uses a map
for `seen`; only membership is observed, so a list of keys suffices). -/
def canonGroups : List (List constraint) → List String → List (List constraint)
  | [], _ => []
  | g :: gs, seen =>
    let clean := simplify (expand g)
    if isValid clean then
      if seen.contains (groupKey clean) then canonGroups gs seen
      else clean :: canonGroups gs (groupKey clean :: seen)
    else canonGroups gs seen

/-- Go string `s <= t`. -/
def strLe (s t : String) : Bool := strLt s t || s == t

/-- Insertion into a key-sorted list of groups. -/
def insertByKey (g : List constraint) : List (List constraint) → List (List constraint)
  | [] => [g]
  | h :: t => if strLe (groupKey g) (groupKey h) then g :: h :: t else h :: insertByKey g t

/-- The slices.SortFunc call of canonicalise: sort groups by groupKey.
canonGroups guarantees pairwise-distinct keys, so every comparison sort
produces the same list; insertion sort is used here. -/
def sortByKey : List (List constraint) → List (List constraint)
  | [] => []
  | g :: t => insertByKey g (sortByKey t)

/-- canonicalise of intersection.go.  The Go function maps nil to nil;
non-nil inputs (the only ones reachable from Intersection and IsSubset)
produce a Constraints with zero-valued IncludePrerelease. -/
def canonicalise (c : Constraints) : Constraints :=
  ⟨sortByKey (canonGroups c.constraints []), false⟩

/-- Intersection of intersection.go, with Go's nil pointers modelled as
none.  Returns none iff either operand is none. -/
def Intersection : Option Constraints → Option Constraints → Option Constraints
  | some a, some b =>
    let includePre := a.IncludePrerelease || b.IncludePrerelease
    let ca := canonicalise a
    let cb := canonicalise b
    let out := ca.constraints.flatMap (fun ga => cb.constraints.map (fun gb => intersect ga gb includePre))
    if out.isEmpty then some ⟨[], false⟩
    else some ⟨(canonicalise ⟨out, false⟩).constraints, includePre⟩
  | _, _ => none

/-- IsSubset of intersection.go: both operands non-nil and the
intersection renders identically to the canonicalised sub.  Intersection
of two some-values is always some, so the getD default is never used. -/
def IsSubset (sub sup : Option Constraints) : Bool :=
  match sub, sup with
  | some a, some b =>
    ((Intersection (some a) (some b)).getD ⟨[], false⟩).String == (canonicalise a).String
  | _, _ => false

/-- A lower-bound operator as recognised by bounds. -/
def lowerOp (c : constraint) : Prop := c.origfunc = ">" ∨ c.origfunc = ">="

/-- An upper-bound operator as recognised by bounds. -/
def upperOp (c : constraint) : Prop := c.origfunc = "<" ∨ c.origfunc = "<="

/-- A plain relational atom: one of the four bound operators, not dirty,
with a prerelease-free pivot. -/
def relAtom (c : constraint) : Prop :=
  (lowerOp c ∨ upperOp c) ∧ c.dirty = false ∧ c.con.pre = ""

/-- An atom that expandConstraint returns unchanged: not a caret or tilde,
and not a dirty bare/equals/<= atom. -/
def passThrough (c : constraint) : Prop :=
  c.origfunc ≠ "^" ∧ c.origfunc ≠ "~" ∧ c.origfunc ≠ "~>" ∧
  ¬((c.origfunc = "" ∨ c.origfunc = "=") ∧ c.dirty = true) ∧
  ¬(c.origfunc = "<=" ∧ c.dirty = true)

/-- A relational atom whose textual pivot is the canonical rendering of its
pivot version and whose pivot carries no build metadata (as produced by the
expander, and by the parser on full canonical version literals). -/
def canonAtom (c : constraint) : Prop :=
  relAtom c ∧ c.con.metadata = "" ∧ c.orig = c.con.String

/-- Pure numeric triple comparison; Version.Compare collapses to it when
both prereleases are empty. -/
def cmpTriple (v o : Version) : Int :=
  if compareSegment v.major o.major ≠ 0 then compareSegment v.major o.major
  else if compareSegment v.minor o.minor ≠ 0 then compareSegment v.minor o.minor
  else if compareSegment v.patch o.patch ≠ 0 then compareSegment v.patch o.patch
  else 0

/-- Lexicographic strict order on (major, minor, patch). -/
def tripleLt (v o : Version) : Prop :=
  v.major < o.major ∨ (v.major = o.major ∧
    (v.minor < o.minor ∨ (v.minor = o.minor ∧ v.patch < o.patch)))

/-- Shorthand for a Version with empty metadata whose original text is its
canonical rendering. -/
def mkVer (ma mi pa : Int) (pre orig : String) : Version :=
  ⟨ma, mi, pa, pre, "", orig⟩

/-- The atom produced by parseConstraint for "~0.0.0": op "~", pivot 0.0.0,
orig "0.0.0", no dirtiness (all three segments are explicit). -/
def atomTilde000 : constraint := ⟨mkVer 0 0 0 "" "0.0.0", "0.0.0", "~", false, false, false⟩

/-- The atom produced by parseConstraint for ">=0.0.0". -/
def atomGe000 : constraint := ⟨mkVer 0 0 0 "" "0.0.0", "0.0.0", ">=", false, false, false⟩

/-- The atom produced by parseConstraint for "<0.1.0". -/
def atomLt010 : constraint := ⟨mkVer 0 1 0 "" "0.1.0", "0.1.0", "<", false, false, false⟩

/-- The atom produced by parseConstraint for the bare "1.2.3": op "",
pivot 1.2.3, not dirty. -/
def atomBare123 : constraint := ⟨mkVer 1 2 3 "" "1.2.3", "1.2.3", "", false, false, false⟩

/-- The atom produced by parseConstraint for "!=1.2.3". -/
def atomNe123 : constraint := ⟨mkVer 1 2 3 "" "1.2.3", "1.2.3", "!=", false, false, false⟩

/-- The atom produced by parseConstraint for ">=1.0.0". -/
def atomGe100 : constraint := ⟨mkVer 1 0 0 "" "1.0.0", "1.0.0", ">=", false, false, false⟩

/-- The atom produced by parseConstraint for ">=2.0.0". -/
def atomGe200 : constraint := ⟨mkVer 2 0 0 "" "2.0.0", "2.0.0", ">=", false, false, false⟩

/-- The atom produced by parseConstraint for "<1.0.0". -/
def atomLt100 : constraint := ⟨mkVer 1 0 0 "" "1.0.0", "1.0.0", "<", false, false, false⟩

/-- The atom produced by parseConstraint for "<2.0.0". -/
def atomLt200 : constraint := ⟨mkVer 2 0 0 "" "2.0.0", "2.0.0", "<", false, false, false⟩

/-- The atom produced by parseConstraint for "^0.0.3": op "^", pivot 0.0.3,
no dirtiness. -/
def atomCaret003 : constraint := ⟨mkVer 0 0 3 "" "0.0.3", "0.0.3", "^", false, false, false⟩

/-- The atom produced by parseConstraint for "^1.x": op "^", pivot 1.0.0,
orig "1.x", minor wildcard sets minorDirty and dirty. -/
def atomCaret1x : constraint := ⟨mkVer 1 0 0 "" "1.0.0", "1.x", "^", true, true, false⟩

/-- The atom produced by parseConstraint for the bare exact "1.0.6-1". -/
def atomBare1061 : constraint := ⟨mkVer 1 0 6 "1" "1.0.6-1", "1.0.6-1", "", false, false, false⟩

/-- The atom produced by parseConstraint for ">=1.0.3-0". -/
def atomGe1030 : constraint := ⟨mkVer 1 0 3 "0" "1.0.3-0", "1.0.3-0", ">=", false, false, false⟩

/-- The atom produced by parseConstraint for "<1.0.6". -/
def atomLt106 : constraint := ⟨mkVer 1 0 6 "" "1.0.6", "1.0.6", "<", false, false, false⟩

/-- The atom produced by parseConstraint for the bare exact "1.0.0+build1"
(build metadata is kept in both con and orig for non-dirty pivots). -/
def atomExactB1 : constraint :=
  ⟨⟨1, 0, 0, "", "build1", "1.0.0+build1"⟩, "1.0.0+build1", "", false, false, false⟩

/-- The atom produced by parseConstraint for the bare exact "1.0.0+build2". -/
def atomExactB2 : constraint :=
  ⟨⟨1, 0, 0, "", "build2", "1.0.0+build2"⟩, "1.0.0+build2", "", false, false, false⟩

instance (c : constraint) : Decidable (lowerOp c) := by
  unfold lowerOp
  infer_instance

instance (c : constraint) : Decidable (upperOp c) := by
  unfold upperOp
  infer_instance

instance (c : constraint) : Decidable (relAtom c) := by
  unfold relAtom
  infer_instance

instance (c : constraint) : Decidable (passThrough c) := by
  unfold passThrough
  infer_instance

instance (c : constraint) : Decidable (canonAtom c) := by
  unfold canonAtom
  infer_instance

theorem compareSegment_cases (a b : Int) :
    (compareSegment a b = -1 ∧ a < b) ∨ (compareSegment a b = 1 ∧ b < a) ∨
    (compareSegment a b = 0 ∧ a = b) := by
  unfold compareSegment
  split_ifs <;> omega

theorem compare_pre_empty (v o : Version) (hv : v.pre = "") (ho : o.pre = "") :
    Version.Compare v o = cmpTriple v o := by
  unfold Version.Compare cmpTriple
  rw [hv, ho]
  simp

theorem cmpTriple_cases (v o : Version) :
    (cmpTriple v o = -1 ∧ tripleLt v o) ∨ (cmpTriple v o = 1 ∧ tripleLt o v) ∨
    (cmpTriple v o = 0 ∧ v.major = o.major ∧ v.minor = o.minor ∧ v.patch = o.patch) := by
  have h1 := compareSegment_cases v.major o.major
  have h2 := compareSegment_cases v.minor o.minor
  have h3 := compareSegment_cases v.patch o.patch
  unfold cmpTriple tripleLt
  split_ifs <;> omega

theorem cmp_trans_up (v a b : Version) (hv : v.pre = "") (ha : a.pre = "") (hb : b.pre = "")
    (h1 : Version.Compare b a < 0) (h2 : 0 ≤ Version.Compare v a) :
    Version.Compare v b = 1 := by
  rw [compare_pre_empty b a hb ha] at h1
  rw [compare_pre_empty v a hv ha] at h2
  rw [compare_pre_empty v b hv hb]
  have c1 := cmpTriple_cases b a
  have c2 := cmpTriple_cases v a
  have c3 := cmpTriple_cases v b
  unfold tripleLt at c1 c2 c3
  omega

theorem cmp_trans_dn (v a b : Version) (hv : v.pre = "") (ha : a.pre = "") (hb : b.pre = "")
    (h1 : 0 < Version.Compare b a) (h2 : Version.Compare v a ≤ 0) :
    Version.Compare v b = -1 := by
  rw [compare_pre_empty b a hb ha] at h1
  rw [compare_pre_empty v a hv ha] at h2
  rw [compare_pre_empty v b hv hb]
  have c1 := cmpTriple_cases b a
  have c2 := cmpTriple_cases v a
  have c3 := cmpTriple_cases v b
  unfold tripleLt at c1 c2 c3
  omega

theorem cmp_congr (a b : Version) (ha : a.pre = "") (hb : b.pre = "")
    (h : Version.Compare a b = 0) (v : Version) :
    Version.Compare v a = Version.Compare v b := by
  have heq : a.major = b.major ∧ a.minor = b.minor ∧ a.patch = b.patch := by
    rw [compare_pre_empty a b ha hb] at h
    have c := cmpTriple_cases a b
    unfold tripleLt at c
    omega
  unfold Version.Compare
  rw [ha, hb, heq.1, heq.2.1, heq.2.2]

theorem check_single (c : constraint) (i : Bool) (v : Version) :
    Constraints.Check ⟨[[c]], i⟩ v = atomOK i c v := by
  simp [Constraints.Check]

theorem atomOK_gt (i : Bool) (c : constraint) (v : Version) (hop : c.origfunc = ">")
    (hd : c.dirty = false) (hv : v.pre = "") :
    atomOK i c v = true ↔ Version.Compare v c.con = 1 := by
  unfold atomOK checkAtom constraintGreaterThan preGate
  simp +decide [hop, hd, hv]
  by_cases h : Version.Compare v c.con = 1 <;> simp [h]

theorem atomOK_ge (i : Bool) (c : constraint) (v : Version) (hop : c.origfunc = ">=")
    (hd : c.dirty = false) (hv : v.pre = "") :
    atomOK i c v = true ↔ 0 ≤ Version.Compare v c.con := by
  unfold atomOK checkAtom constraintGreaterThanEqual preGate
  simp +decide [hop, hd, hv]
  by_cases h : 0 ≤ Version.Compare v c.con <;> simp [h]

theorem atomOK_lt (i : Bool) (c : constraint) (v : Version) (hop : c.origfunc = "<")
    (hd : c.dirty = false) (hv : v.pre = "") :
    atomOK i c v = true ↔ Version.Compare v c.con < 0 := by
  unfold atomOK checkAtom constraintLessThan preGate
  simp +decide [hop, hd, hv]
  by_cases h : Version.Compare v c.con < 0 <;> simp [h]

theorem atomOK_le (i : Bool) (c : constraint) (v : Version) (hop : c.origfunc = "<=")
    (hd : c.dirty = false) (hv : v.pre = "") :
    atomOK i c v = true ↔ Version.Compare v c.con ≤ 0 := by
  unfold atomOK checkAtom constraintLessThanEqual preGate
  simp +decide [hop, hd, hv]
  by_cases h : Version.Compare v c.con ≤ 0 <;> simp [h]

theorem relAtom_passThrough (c : constraint) (h : relAtom c) : passThrough c := by
  obtain ⟨hop, hd, _⟩ := h
  unfold lowerOp upperOp at hop
  unfold passThrough
  rcases hop with (h1 | h1) | (h1 | h1) <;> rw [h1] <;> simp +decide [hd]

theorem expand_pass (c : constraint) (h : passThrough c) : expandConstraint c = [c] := by
  obtain ⟨h1, h2, h3, h4, h5⟩ := h
  unfold expandConstraint
  rw [if_neg h1]
  rw [if_neg (by rintro (h | h); exact h2 h; exact h3 h)]
  rw [if_neg h4]
  rw [if_neg h5]

theorem expand_pass_list (g : List constraint) (h : ∀ c ∈ g, passThrough c) :
    expand g = g := by
  induction g with
  | nil => rfl
  | cons c t ih =>
    have h1 : expandConstraint c = [c] := expand_pass c (h c (by simp))
    have h2 : expand t = t := ih (fun x hx => h x (by simp [hx]))
    unfold expand at h2 ⊢
    rw [List.flatMap_cons, h1, h2]
    rfl

theorem bounds_single_lower (c : constraint) (hc : lowerOp c) :
    bounds [c] = (some c, none) := by
  unfold lowerOp at hc
  unfold bounds boundsLoop
  rw [if_pos hc]
  simp [better, boundsLoop]

theorem bounds_single_upper (c : constraint) (hc : upperOp c) :
    bounds [c] = (none, some c) := by
  unfold upperOp at hc
  have hne : ¬(c.origfunc = ">" ∨ c.origfunc = ">=") := by
    rcases hc with h | h <;> rw [h] <;> simp +decide
  unfold bounds boundsLoop
  rw [if_neg hne, if_pos hc]
  simp [better, boundsLoop]

theorem isValid_single_rel (c : constraint) (h : relAtom c) : isValid [c] = true := by
  obtain ⟨hop, _, _⟩ := h
  unfold isValid
  rcases hop with hl | hu
  · rw [bounds_single_lower c hl]
    simp
  · rw [bounds_single_upper c hu]
    simp

theorem canonicalise_single_rel (c : constraint) (h : relAtom c) (i : Bool) :
    canonicalise ⟨[[c]], i⟩ = ⟨[[c]], false⟩ := by
  unfold canonicalise canonGroups
  have he : expand [c] = [c] := expand_pass_list [c] (by
    intro x hx
    simp at hx
    rw [hx]
    exact relAtom_passThrough c h)
  rw [he]
  have hs : simplify [c] = [c] := by unfold simplify; simp
  rw [hs]
  rw [if_pos (isValid_single_rel c h)]
  simp [canonGroups, sortByKey, insertByKey]

theorem splitExact_single_rel (c : constraint) (h : relAtom c) :
    splitExact [c] = ([], [c]) := by
  obtain ⟨hop, _, _⟩ := h
  unfold lowerOp upperOp at hop
  unfold splitExact
  rw [List.partition_eq_filter_filter]
  rcases hop with (h1 | h1) | (h1 | h1) <;>
    simp +decide [List.filter_cons, List.filter_nil, h1]

theorem intersect_single_rel (ca cb : constraint) (ip : Bool)
    (ha : relAtom ca) (hb : relAtom cb) :
    intersect [ca] [cb] ip = simplify [ca, cb] := by
  unfold intersect
  rw [splitExact_single_rel ca ha, splitExact_single_rel cb hb]
  simp

theorem bounds_LL (ca cb : constraint) (ha : lowerOp ca) (hb : lowerOp cb) :
    bounds [ca, cb] = ((if better (some ca) cb 1 then some cb else some ca), none) := by
  unfold lowerOp at ha hb
  unfold bounds
  rcases ha with h1 | h1 <;> rcases hb with h2 | h2 <;>
    simp +decide [boundsLoop, h1, h2, better]

theorem bounds_UU (ca cb : constraint) (ha : upperOp ca) (hb : upperOp cb) :
    bounds [ca, cb] = (none, (if better (some ca) cb (-1) then some cb else some ca)) := by
  unfold upperOp at ha hb
  unfold bounds
  rcases ha with h1 | h1 <;> rcases hb with h2 | h2 <;>
    simp +decide [boundsLoop, h1, h2, better]

theorem bounds_LU (ca cb : constraint) (ha : lowerOp ca) (hb : upperOp cb) :
    bounds [ca, cb] = (some ca, some cb) := by
  unfold lowerOp at ha
  unfold upperOp at hb
  unfold bounds
  rcases ha with h1 | h1 <;> rcases hb with h2 | h2 <;>
    simp +decide [boundsLoop, h1, h2, better]

theorem bounds_UL (ca cb : constraint) (ha : upperOp ca) (hb : lowerOp cb) :
    bounds [ca, cb] = (some cb, some ca) := by
  unfold upperOp at ha
  unfold lowerOp at hb
  unfold bounds
  rcases ha with h1 | h1 <;> rcases hb with h2 | h2 <;>
    simp +decide [boundsLoop, h1, h2, better]

theorem simplify_LL (ca cb : constraint) (ha : lowerOp ca) (hb : lowerOp cb) :
    simplify [ca, cb] = [if better (some ca) cb 1 then cb else ca] := by
  unfold simplify
  rw [bounds_LL ca cb ha hb]
  by_cases h : better (some ca) cb 1 = true
  · rw [if_pos h]
    simp [h]
  · rw [if_neg h]
    simp [h]

theorem simplify_UU (ca cb : constraint) (ha : upperOp ca) (hb : upperOp cb) :
    simplify [ca, cb] = [if better (some ca) cb (-1) then cb else ca] := by
  unfold simplify
  rw [bounds_UU ca cb ha hb]
  by_cases h : better (some ca) cb (-1) = true
  · rw [if_pos h]
    simp [h]
  · rw [if_neg h]
    simp [h]

theorem simplify_LU (ca cb : constraint) (ha : lowerOp ca) (hb : upperOp cb) :
    simplify [ca, cb] = [ca, cb] := by
  unfold simplify
  rw [bounds_LU ca cb ha hb]
  simp

theorem simplify_UL (ca cb : constraint) (ha : upperOp ca) (hb : lowerOp cb) :
    simplify [ca, cb] = [cb, ca] := by
  unfold simplify
  rw [bounds_UL ca cb ha hb]
  simp

theorem Intersection_single (ca cb : constraint) (ia ib : Bool)
    (ha : relAtom ca) (hb : relAtom cb) :
    Intersection (some ⟨[[ca]], ia⟩) (some ⟨[[cb]], ib⟩) =
      some ⟨(canonicalise ⟨[simplify [ca, cb]], false⟩).constraints, ia || ib⟩ := by
  unfold Intersection
  dsimp only
  rw [canonicalise_single_rel ca ha, canonicalise_single_rel cb hb]
  simp only [List.flatMap_cons, List.flatMap_nil, List.map_cons, List.map_nil, List.append_nil]
  rw [intersect_single_rel ca cb _ ha hb]
  simp [List.isEmpty]

theorem string_single (c : constraint) (f : Bool) :
    (Constraints.mk [[c]] f).String = c.string := by
  simp [Constraints.String, joinGroups, groupString]

theorem string_pair (c1 c2 : constraint) (f : Bool) :
    (Constraints.mk [[c1, c2]] f).String = c1.string ++ " " ++ c2.string := by
  simp [Constraints.String, joinGroups, groupString]

theorem string_empty (f : Bool) : (Constraints.mk [] f).String = "" := by
  simp [Constraints.String, joinGroups]

theorem rel_string_len (c : constraint) (h : relAtom c) : 0 < c.string.length := by
  obtain ⟨hop, _, _⟩ := h
  unfold lowerOp upperOp at hop
  unfold constraint.string
  rcases hop with (h1 | h1) | (h1 | h1) <;> rw [h1] <;> simp [String.length_append] <;>
    exact Or.inl (by decide)

theorem canonGroups_single (g : List constraint) :
    canonGroups [g] [] =
      (if isValid (simplify (expand g)) then [simplify (expand g)] else []) := by
  simp [canonGroups]

theorem sortByKey_single (g : List constraint) : sortByKey [g] = [g] := by
  simp [sortByKey, insertByKey]

theorem canonicalise_group_single (g : List constraint) (i : Bool) :
    canonicalise ⟨[g], i⟩ =
      (if isValid (simplify (expand g)) then (⟨[simplify (expand g)], false⟩ : Constraints)
       else ⟨[], false⟩) := by
  unfold canonicalise
  rw [canonGroups_single g]
  by_cases hv : isValid (simplify (expand g)) = true
  · rw [if_pos hv, if_pos hv, sortByKey_single]
  · rw [if_neg hv, if_neg hv]
    rfl

theorem cmp_zero_symm (a b : Version) (ha : a.pre = "") (hb : b.pre = "")
    (h : Version.Compare a b = 0) : Version.Compare b a = 0 := by
  rw [compare_pre_empty a b ha hb] at h
  rw [compare_pre_empty b a hb ha]
  have c1 := cmpTriple_cases a b
  have c2 := cmpTriple_cases b a
  unfold tripleLt at c1 c2
  omega

theorem lower_winner_propagate (ca cb : constraint) (v : Version) (ia ib : Bool)
    (ha : relAtom ca) (hla : lowerOp ca) (hb : relAtom cb) (hlb : lowerOp cb)
    (hv : v.pre = "")
    (hw : better (some ca) cb 1 = false)
    (hchk : atomOK ia ca v = true) : atomOK ib cb v = true := by
  have hpa : ca.con.pre = "" := ha.2.2
  have hpb : cb.con.pre = "" := hb.2.2
  have hge : 0 ≤ Version.Compare v ca.con := by
    rcases hla with h1 | h1
    · have := (atomOK_gt ia ca v h1 ha.2.1 hv).mp hchk
      omega
    · exact (atomOK_ge ia ca v h1 ha.2.1 hv).mp hchk
  simp only [better] at hw
  by_cases hd : Version.Compare cb.con ca.con ≠ 0
  · rw [if_pos hd] at hw
    have hlt : Version.Compare cb.con ca.con < 0 := by
      simp only [decide_eq_false_iff_not] at hw
      omega
    have h1 := cmp_trans_up v ca.con cb.con hv hpa hpb hlt hge
    rcases hlb with h2 | h2
    · exact (atomOK_gt ib cb v h2 hb.2.1 hv).mpr h1
    · exact (atomOK_ge ib cb v h2 hb.2.1 hv).mpr (by omega)
  · rw [if_neg hd] at hw
    push_neg at hd
    have hd2 : Version.Compare ca.con cb.con = 0 := cmp_zero_symm cb.con ca.con hpb hpa hd
    have hcongr := cmp_congr ca.con cb.con hpa hpb hd2 v
    rw [if_pos (by norm_num : (1 : Int) > 0)] at hw
    simp only [decide_eq_false_iff_not] at hw
    rcases hlb with h2 | h2
    · have hca : ca.origfunc = ">" := by
        rcases hla with h3 | h3
        · exact h3
        · exact absurd ⟨h3, h2⟩ hw
      have h1 := (atomOK_gt ia ca v hca ha.2.1 hv).mp hchk
      rw [hcongr] at h1
      exact (atomOK_gt ib cb v h2 hb.2.1 hv).mpr h1
    · have hx : 0 ≤ Version.Compare v cb.con := by
        rw [← hcongr]
        exact hge
      exact (atomOK_ge ib cb v h2 hb.2.1 hv).mpr hx

theorem upper_winner_propagate (ca cb : constraint) (v : Version) (ia ib : Bool)
    (ha : relAtom ca) (hua : upperOp ca) (hb : relAtom cb) (hub : upperOp cb)
    (hv : v.pre = "")
    (hw : better (some ca) cb (-1) = false)
    (hchk : atomOK ia ca v = true) : atomOK ib cb v = true := by
  have hpa : ca.con.pre = "" := ha.2.2
  have hpb : cb.con.pre = "" := hb.2.2
  have hle : Version.Compare v ca.con ≤ 0 := by
    rcases hua with h1 | h1
    · have := (atomOK_lt ia ca v h1 ha.2.1 hv).mp hchk
      omega
    · exact (atomOK_le ia ca v h1 ha.2.1 hv).mp hchk
  simp only [better] at hw
  by_cases hd : Version.Compare cb.con ca.con ≠ 0
  · rw [if_pos hd] at hw
    have hgt : 0 < Version.Compare cb.con ca.con := by
      simp only [decide_eq_false_iff_not] at hw
      omega
    have h1 := cmp_trans_dn v ca.con cb.con hv hpa hpb hgt hle
    rcases hub with h2 | h2
    · exact (atomOK_lt ib cb v h2 hb.2.1 hv).mpr (by omega)
    · exact (atomOK_le ib cb v h2 hb.2.1 hv).mpr (by omega)
  · rw [if_neg hd] at hw
    push_neg at hd
    have hd2 : Version.Compare ca.con cb.con = 0 := cmp_zero_symm cb.con ca.con hpb hpa hd
    have hcongr := cmp_congr ca.con cb.con hpa hpb hd2 v
    rw [if_neg (by norm_num : ¬((-1 : Int) > 0))] at hw
    simp only [decide_eq_false_iff_not] at hw
    rcases hub with h2 | h2
    · have hca : ca.origfunc = "<" := by
        rcases hua with h3 | h3
        · exact h3
        · exact absurd ⟨h3, h2⟩ hw
      have h1 := (atomOK_lt ia ca v hca ha.2.1 hv).mp hchk
      rw [hcongr] at h1
      exact (atomOK_lt ib cb v h2 hb.2.1 hv).mpr h1
    · have hx : Version.Compare v cb.con ≤ 0 := by
        rw [← hcongr]
        exact hle
      exact (atomOK_le ib cb v h2 hb.2.1 hv).mpr hx

theorem atomOK_flag_indep (c : constraint) (v : Version) (ia ib : Bool)
    (h : relAtom c) (hv : v.pre = "")
    (hchk : atomOK ia c v = true) : atomOK ib c v = true := by
  obtain ⟨hop, hd, _⟩ := h
  rcases hop with (h2 | h2) | (h2 | h2)
  · exact (atomOK_gt ib c v h2 hd hv).mpr ((atomOK_gt ia c v h2 hd hv).mp hchk)
  · exact (atomOK_ge ib c v h2 hd hv).mpr ((atomOK_ge ia c v h2 hd hv).mp hchk)
  · exact (atomOK_lt ib c v h2 hd hv).mpr ((atomOK_lt ia c v h2 hd hv).mp hchk)
  · exact (atomOK_le ib c v h2 hd hv).mpr ((atomOK_le ia c v h2 hd hv).mp hchk)

/-- Claim C1 (amended): for single-atom constraint expressions a and b
whose atoms are non-dirty >, >=, < or <= atoms with prerelease-free pivots
and distinct renders only for distinct atoms (true of parser output), and
any version v without a prerelease: if check(a, v) and is_subset(a, b)
then check(b, v).  (As stated over all parsed expressions the claim is
false; see the counterexample.) -/
theorem subset_check_single (ca cb : constraint) (ia ib : Bool) (v : Version)
    (ha : relAtom ca) (hb : relAtom cb)
    (hinj : ca.string = cb.string → ca = cb)
    (hv : v.pre = "")
    (hchk : Constraints.Check ⟨[[ca]], ia⟩ v = true)
    (hsub : IsSubset (some ⟨[[ca]], ia⟩) (some ⟨[[cb]], ib⟩) = true) :
    Constraints.Check ⟨[[cb]], ib⟩ v = true := by
  rw [check_single] at hchk
  rw [check_single]
  have hI := Intersection_single ca cb ia ib ha hb
  unfold IsSubset at hsub
  dsimp only at hsub
  rw [hI] at hsub
  rw [canonicalise_single_rel ca ha] at hsub
  simp only [Option.getD_some, beq_iff_eq] at hsub
  rw [string_single] at hsub
  have hexp : expand [ca, cb] = [ca, cb] := by
    refine expand_pass_list [ca, cb] ?_
    intro x hx
    rcases List.mem_cons.mp hx with h1 | h1
    · rw [h1]
      exact relAtom_passThrough ca ha
    · rw [List.mem_singleton.mp h1]
      exact relAtom_passThrough cb hb
  obtain ⟨hopa, hda, hpa⟩ := ha
  obtain ⟨hopb, hdb, hpb⟩ := hb
  rcases hopa with hla | hua
  · rcases hopb with hlb | hub
    · -- both lower bounds
      rw [simplify_LL ca cb hla hlb] at hsub
      by_cases hbet : better (some ca) cb 1 = true
      · rw [if_pos hbet] at hsub
        rw [canonicalise_single_rel cb ⟨Or.inl hlb, hdb, hpb⟩] at hsub
        dsimp only at hsub
        rw [string_single] at hsub
        have hab : ca = cb := hinj hsub.symm
        rw [← hab]
        exact atomOK_flag_indep ca v ia ib ⟨Or.inl hla, hda, hpa⟩ hv hchk
      · have hbet2 : better (some ca) cb 1 = false := by
          revert hbet
          cases better (some ca) cb 1 <;> simp
        exact lower_winner_propagate ca cb v ia ib ⟨Or.inl hla, hda, hpa⟩ hla
          ⟨Or.inl hlb, hdb, hpb⟩ hlb hv hbet2 hchk
    · -- ca lower, cb upper: the intersection keeps both atoms (or is invalid),
      -- so its render can never equal the single-atom render of ca
      rw [simplify_LU ca cb hla hub] at hsub
      rw [canonicalise_group_single [ca, cb] false] at hsub
      rw [hexp, simplify_LU ca cb hla hub] at hsub
      by_cases hval : isValid [ca, cb] = true
      · rw [if_pos hval] at hsub
        dsimp only at hsub
        rw [string_pair] at hsub
        exfalso
        have hlen := congrArg String.length hsub
        rw [String.length_append, String.length_append] at hlen
        have h2 := rel_string_len cb ⟨Or.inr hub, hdb, hpb⟩
        have hsp : (" " : String).length = 1 := rfl
        omega
      · rw [if_neg hval] at hsub
        dsimp only at hsub
        rw [string_empty] at hsub
        exfalso
        have h1 := rel_string_len ca ⟨Or.inl hla, hda, hpa⟩
        have hlen := congrArg String.length hsub
        simp at hlen
        omega
  · rcases hopb with hlb | hub
    · -- ca upper, cb lower
      rw [simplify_UL ca cb hua hlb] at hsub
      rw [canonicalise_group_single [cb, ca] false] at hsub
      have hexp2 : expand [cb, ca] = [cb, ca] := by
        refine expand_pass_list [cb, ca] ?_
        intro x hx
        rcases List.mem_cons.mp hx with h1 | h1
        · rw [h1]
          exact relAtom_passThrough cb ⟨Or.inl hlb, hdb, hpb⟩
        · rw [List.mem_singleton.mp h1]
          exact relAtom_passThrough ca ⟨Or.inr hua, hda, hpa⟩
      rw [hexp2, simplify_LU cb ca hlb hua] at hsub
      by_cases hval : isValid [cb, ca] = true
      · rw [if_pos hval] at hsub
        dsimp only at hsub
        rw [string_pair] at hsub
        exfalso
        have hlen := congrArg String.length hsub
        rw [String.length_append, String.length_append] at hlen
        have hsp : (" " : String).length = 1 := rfl
        omega
      · rw [if_neg hval] at hsub
        dsimp only at hsub
        rw [string_empty] at hsub
        exfalso
        have h1 := rel_string_len ca ⟨Or.inr hua, hda, hpa⟩
        have hlen := congrArg String.length hsub
        simp at hlen
        omega
    · -- both upper bounds
      rw [simplify_UU ca cb hua hub] at hsub
      by_cases hbet : better (some ca) cb (-1) = true
      · rw [if_pos hbet] at hsub
        rw [canonicalise_single_rel cb ⟨Or.inr hub, hdb, hpb⟩] at hsub
        dsimp only at hsub
        rw [string_single] at hsub
        have hab : ca = cb := hinj hsub.symm
        rw [← hab]
        exact atomOK_flag_indep ca v ia ib ⟨Or.inr hua, hda, hpa⟩ hv hchk
      · have hbet2 : better (some ca) cb (-1) = false := by
          revert hbet
          cases better (some ca) cb (-1) <;> simp
        exact upper_winner_propagate ca cb v ia ib ⟨Or.inr hua, hda, hpa⟩ hua
          ⟨Or.inr hub, hdb, hpb⟩ hub hv hbet2 hchk

theorem bool_eq_of_iff {a b : Bool} (h : a = true ↔ b = true) : a = b := by
  cases a <;> cases b <;> simp_all

theorem insertByKey_perm (g : List constraint) (l : List (List constraint)) :
    List.Perm (insertByKey g l) (g :: l) := by
  induction l with
  | nil => exact List.Perm.refl _
  | cons h t ih =>
    unfold insertByKey
    by_cases hc : strLe (groupKey g) (groupKey h) = true
    · rw [if_pos hc]
    · rw [if_neg hc]
      exact (ih.cons h).trans (List.Perm.swap g h t)

theorem sortByKey_perm (l : List (List constraint)) : List.Perm (sortByKey l) l := by
  induction l with
  | nil => exact List.Perm.refl _
  | cons g t ih =>
    exact (insertByKey_perm g (sortByKey t)).trans (ih.cons g)

theorem check_iff_exists (l : List (List constraint)) (f : Bool) (v : Version) :
    Constraints.Check ⟨l, f⟩ v = true ↔ ∃ g ∈ l, ∀ c ∈ g, atomOK f c v = true := by
  simp [Constraints.Check, List.any_eq_true, List.all_eq_true]

theorem isValid_single_any (c : constraint) : isValid [c] = true := by
  have hb : bounds [c] = (some c, none) ∨ bounds [c] = (none, some c) ∨
      bounds [c] = (none, none) := by
    unfold bounds boundsLoop
    by_cases h1 : (c.origfunc = ">" ∨ c.origfunc = ">=")
    · rw [if_pos h1]
      left
      simp [better, boundsLoop]
    · rw [if_neg h1]
      by_cases h2 : (c.origfunc = "<" ∨ c.origfunc = "<=")
      · rw [if_pos h2]
        right
        left
        simp [better, boundsLoop]
      · rw [if_neg h2]
        right
        right
        simp [boundsLoop]
  unfold isValid
  rw [if_neg (by simp : ¬([c] = []))]
  rcases hb with h | h | h <;> rw [h]

theorem canonGroups_cons_eq (x : List constraint) (t : List (List constraint))
    (seen : List String)
    (hclean : simplify (expand x) = x) (hval : isValid x = true) :
    canonGroups (x :: t) seen =
      if seen.contains (groupKey x) then canonGroups t seen
      else x :: canonGroups t (groupKey x :: seen) := by
  simp only [canonGroups]
  rw [hclean, if_pos hval]

theorem canonGroups_mem_of (l : List (List constraint))
    (hcl : ∀ g ∈ l, simplify (expand g) = g ∧ isValid g = true) :
    ∀ seen, ∀ g ∈ canonGroups l seen, g ∈ l := by
  induction l with
  | nil =>
    intro seen g hg
    simp [canonGroups] at hg
  | cons x t ih =>
    intro seen g hg
    rw [canonGroups_cons_eq x t seen (hcl x (by simp)).1 (hcl x (by simp)).2] at hg
    have ht : ∀ y ∈ t, simplify (expand y) = y ∧ isValid y = true :=
      fun y hy => hcl y (by simp [hy])
    by_cases hc : (seen.contains (groupKey x)) = true
    · rw [if_pos hc] at hg
      exact List.mem_cons_of_mem x (ih ht seen g hg)
    · rw [if_neg hc] at hg
      rcases List.mem_cons.mp hg with h1 | h1
      · rw [h1]
        exact List.mem_cons_self x t
      · exact List.mem_cons_of_mem x (ih ht (groupKey x :: seen) g h1)

theorem canonGroups_exists (l : List (List constraint))
    (hcl : ∀ g ∈ l, simplify (expand g) = g ∧ isValid g = true)
    (hinj : ∀ g ∈ l, ∀ g2 ∈ l, groupKey g = groupKey g2 → g = g2) :
    ∀ g ∈ l, ∀ seen, g ∈ canonGroups l seen ∨ (seen.contains (groupKey g)) = true := by
  induction l with
  | nil =>
    intro g hg
    exact absurd hg (List.not_mem_nil g)
  | cons x t ih =>
    intro g hg seen
    rw [canonGroups_cons_eq x t seen (hcl x (by simp)).1 (hcl x (by simp)).2]
    have ht : ∀ y ∈ t, simplify (expand y) = y ∧ isValid y = true :=
      fun y hy => hcl y (by simp [hy])
    have htinj : ∀ y ∈ t, ∀ y2 ∈ t, groupKey y = groupKey y2 → y = y2 :=
      fun y hy y2 hy2 => hinj y (by simp [hy]) y2 (by simp [hy2])
    by_cases hc : (seen.contains (groupKey x)) = true
    · rw [if_pos hc]
      rcases List.mem_cons.mp hg with h1 | h1
      · right
        rw [h1]
        exact hc
      · exact ih ht htinj g h1 seen
    · rw [if_neg hc]
      rcases List.mem_cons.mp hg with h1 | h1
      · left
        rw [h1]
        exact List.mem_cons_self _ _
      · rcases ih ht htinj g h1 (groupKey x :: seen) with h2 | h2
        · left
          exact List.mem_cons_of_mem x h2
        · rw [List.contains_cons] at h2
          rcases Bool.or_eq_true_iff.mp h2 with h3 | h3
          · left
            have hkey : groupKey g = groupKey x := beq_iff_eq.mp h3
            have : g = x := hinj g (by simp [h1]) x (by simp) hkey
            rw [this]
            exact List.mem_cons_self _ _
          · right
            exact h3

theorem cmp_antisym (a b : Version) (ha : a.pre = "") (hb : b.pre = "") :
    Version.Compare a b = -Version.Compare b a := by
  rw [compare_pre_empty a b ha hb, compare_pre_empty b a hb ha]
  have c1 := cmpTriple_cases a b
  have c2 := cmpTriple_cases b a
  unfold tripleLt at c1 c2
  omega

theorem verstring_congr (a b : Version) (ha : a.pre = "") (hb : b.pre = "")
    (hma : a.metadata = "") (hmb : b.metadata = "")
    (h : Version.Compare a b = 0) : Version.String a = Version.String b := by
  have heq : a.major = b.major ∧ a.minor = b.minor ∧ a.patch = b.patch := by
    rw [compare_pre_empty a b ha hb] at h
    have c := cmpTriple_cases a b
    unfold tripleLt at c
    omega
  unfold Version.String
  rw [ha, hb, hma, hmb, heq.1, heq.2.1, heq.2.2]

theorem better_ne (ca cb : constraint) (d : Int)
    (hd : Version.Compare cb.con ca.con ≠ 0) :
    better (some ca) cb d = decide (Version.Compare cb.con ca.con * d > 0) := by
  simp only [better]
  rw [if_pos hd]

theorem better_tie_pos (ca cb : constraint)
    (hd : Version.Compare cb.con ca.con = 0) :
    better (some ca) cb 1 = decide (ca.origfunc = ">=" ∧ cb.origfunc = ">") := by
  simp only [better]
  rw [if_neg (by simp [hd]), if_pos (by norm_num : (1 : Int) > 0)]

theorem better_tie_neg (ca cb : constraint)
    (hd : Version.Compare cb.con ca.con = 0) :
    better (some ca) cb (-1) = decide (ca.origfunc = "<=" ∧ cb.origfunc = "<") := by
  simp only [better]
  rw [if_neg (by simp [hd]), if_neg (by norm_num : ¬((-1 : Int) > 0))]

theorem rel_string_eq (ca cb : constraint)
    (hopeq : ca.origfunc = cb.origfunc)
    (hoa : ca.orig = ca.con.String) (hob : cb.orig = cb.con.String)
    (hpa : ca.con.pre = "") (hpb : cb.con.pre = "")
    (hma : ca.con.metadata = "") (hmb : cb.con.metadata = "")
    (hd : Version.Compare ca.con cb.con = 0) : ca.string = cb.string := by
  unfold constraint.string
  rw [hopeq, hoa, hob, verstring_congr ca.con cb.con hpa hpb hma hmb hd]

theorem winner_string_LL (ca cb : constraint) (hla : lowerOp ca) (hlb : lowerOp cb)
    (ha : canonAtom ca) (hb : canonAtom cb) :
    (if better (some ca) cb 1 then cb else ca).string =
      (if better (some cb) ca 1 then ca else cb).string := by
  obtain ⟨⟨_, hda, hpa⟩, hma, hoa⟩ := ha
  obtain ⟨⟨_, hdb, hpb⟩, hmb, hob⟩ := hb
  by_cases hd : Version.Compare cb.con ca.con = 0
  · have hd2 : Version.Compare ca.con cb.con = 0 := cmp_zero_symm cb.con ca.con hpb hpa hd
    rw [better_tie_pos ca cb hd, better_tie_pos cb ca hd2]
    rcases hla with hA | hA <;> rcases hlb with hB | hB
    · have heq : ca.string = cb.string :=
        rel_string_eq ca cb (by rw [hA, hB]) hoa hob hpa hpb hma hmb hd2
      simp +decide [hA, hB, heq]
    · simp +decide [hA, hB]
    · simp +decide [hA, hB]
    · have heq : ca.string = cb.string :=
        rel_string_eq ca cb (by rw [hA, hB]) hoa hob hpa hpb hma hmb hd2
      simp +decide [hA, hB, heq]
  · have hd2 : Version.Compare ca.con cb.con ≠ 0 := by
      rw [cmp_antisym ca.con cb.con hpa hpb]
      omega
    rw [better_ne ca cb 1 hd, better_ne cb ca 1 hd2]
    have hanti : Version.Compare ca.con cb.con = -Version.Compare cb.con ca.con :=
      cmp_antisym ca.con cb.con hpa hpb
    by_cases hpos : Version.Compare cb.con ca.con > 0
    · rw [if_pos (by simpa using hpos), if_neg (by simp; omega)]
    · rw [if_neg (by simpa using hpos), if_pos (by simp; omega)]

theorem winner_string_UU (ca cb : constraint) (hua : upperOp ca) (hub : upperOp cb)
    (ha : canonAtom ca) (hb : canonAtom cb) :
    (if better (some ca) cb (-1) then cb else ca).string =
      (if better (some cb) ca (-1) then ca else cb).string := by
  obtain ⟨⟨_, hda, hpa⟩, hma, hoa⟩ := ha
  obtain ⟨⟨_, hdb, hpb⟩, hmb, hob⟩ := hb
  by_cases hd : Version.Compare cb.con ca.con = 0
  · have hd2 : Version.Compare ca.con cb.con = 0 := cmp_zero_symm cb.con ca.con hpb hpa hd
    rw [better_tie_neg ca cb hd, better_tie_neg cb ca hd2]
    rcases hua with hA | hA <;> rcases hub with hB | hB
    · have heq : ca.string = cb.string :=
        rel_string_eq ca cb (by rw [hA, hB]) hoa hob hpa hpb hma hmb hd2
      simp +decide [hA, hB, heq]
    · simp +decide [hA, hB]
    · simp +decide [hA, hB]
    · have heq : ca.string = cb.string :=
        rel_string_eq ca cb (by rw [hA, hB]) hoa hob hpa hpb hma hmb hd2
      simp +decide [hA, hB, heq]
  · have hd2 : Version.Compare ca.con cb.con ≠ 0 := by
      rw [cmp_antisym ca.con cb.con hpa hpb]
      omega
    rw [better_ne ca cb (-1) hd, better_ne cb ca (-1) hd2]
    have hanti : Version.Compare ca.con cb.con = -Version.Compare cb.con ca.con :=
      cmp_antisym ca.con cb.con hpa hpb
    by_cases hpos : Version.Compare cb.con ca.con * (-1) > 0
    · rw [if_pos (by simpa using hpos), if_neg (by simp; omega)]
    · rw [if_neg (by simpa using hpos), if_pos (by simp; omega)]

theorem intersection_comm_single (ca cb : constraint) (ia ib : Bool)
    (ha : canonAtom ca) (hb : canonAtom cb) :
    ((Intersection (some ⟨[[ca]], ia⟩) (some ⟨[[cb]], ib⟩)).getD ⟨[], false⟩).String =
      ((Intersection (some ⟨[[cb]], ib⟩) (some ⟨[[ca]], ia⟩)).getD ⟨[], false⟩).String := by
  have hra : relAtom ca := ha.1
  have hrb : relAtom cb := hb.1
  rw [Intersection_single ca cb ia ib hra hrb, Intersection_single cb ca ib ia hrb hra]
  simp only [Option.getD_some]
  show joinGroups _ = joinGroups _
  obtain ⟨hopa, hda, hpa⟩ := hra
  obtain ⟨hopb, hdb, hpb⟩ := hrb
  rcases hopa with hla | hua
  · rcases hopb with hlb | hub
    · rw [simplify_LL ca cb hla hlb, simplify_LL cb ca hlb hla]
      have hw1 : relAtom (if better (some ca) cb 1 then cb else ca) := by
        by_cases hq : better (some ca) cb 1 = true
        · rw [if_pos hq]
          exact ⟨Or.inl hlb, hdb, hpb⟩
        · rw [if_neg hq]
          exact ⟨Or.inl hla, hda, hpa⟩
      have hw2 : relAtom (if better (some cb) ca 1 then ca else cb) := by
        by_cases hq : better (some cb) ca 1 = true
        · rw [if_pos hq]
          exact ⟨Or.inl hla, hda, hpa⟩
        · rw [if_neg hq]
          exact ⟨Or.inl hlb, hdb, hpb⟩
      rw [canonicalise_single_rel _ hw1, canonicalise_single_rel _ hw2]
      show groupString _ = groupString _
      show constraint.string _ = constraint.string _
      exact winner_string_LL ca cb hla hlb ha hb
    · rw [simplify_LU ca cb hla hub, simplify_UL cb ca hub hla]
  · rcases hopb with hlb | hub
    · rw [simplify_UL ca cb hua hlb, simplify_LU cb ca hlb hua]
    · rw [simplify_UU ca cb hua hub, simplify_UU cb ca hub hua]
      have hw1 : relAtom (if better (some ca) cb (-1) then cb else ca) := by
        by_cases hq : better (some ca) cb (-1) = true
        · rw [if_pos hq]
          exact ⟨Or.inr hub, hdb, hpb⟩
        · rw [if_neg hq]
          exact ⟨Or.inr hua, hda, hpa⟩
      have hw2 : relAtom (if better (some cb) ca (-1) then ca else cb) := by
        by_cases hq : better (some cb) ca (-1) = true
        · rw [if_pos hq]
          exact ⟨Or.inr hua, hda, hpa⟩
        · rw [if_neg hq]
          exact ⟨Or.inr hub, hdb, hpb⟩
      rw [canonicalise_single_rel _ hw1, canonicalise_single_rel _ hw2]
      show constraint.string _ = constraint.string _
      exact winner_string_UU ca cb hua hub ha hb

theorem intersection_idem_single (ca : constraint) (ia : Bool) (ha : relAtom ca) :
    ((Intersection (some ⟨[[ca]], ia⟩) (some ⟨[[ca]], ia⟩)).getD ⟨[], false⟩).String =
      (canonicalise ⟨[[ca]], ia⟩).String := by
  rw [Intersection_single ca ca ia ia ha ha, canonicalise_single_rel ca ha]
  simp only [Option.getD_some]
  obtain ⟨hop, hd, hp⟩ := ha
  rcases hop with hl | hu
  · rw [simplify_LL ca ca hl hl, ite_self]
    rw [canonicalise_single_rel ca ⟨Or.inl hl, hd, hp⟩]
    rfl
  · rw [simplify_UU ca ca hu hu, ite_self]
    rw [canonicalise_single_rel ca ⟨Or.inr hu, hd, hp⟩]
    rfl

theorem intersection_some (a b : Constraints) :
    ∃ r, Intersection (some a) (some b) = some r := by
  unfold Intersection
  dsimp only
  split <;> exact ⟨_, rfl⟩

theorem tilde_no_pre (v : Version) (c : constraint) :
    constraintTilde true v c ≠ CRes.preErr := by
  unfold constraintTilde preGate
  split_ifs <;> simp_all

theorem notEqual_no_pre (v : Version) (c : constraint) :
    constraintNotEqual true v c ≠ CRes.preErr := by
  unfold constraintNotEqual preGate
  split_ifs <;> simp_all

theorem gtc_no_pre (v : Version) (c : constraint) :
    constraintGreaterThan true v c ≠ CRes.preErr := by
  unfold constraintGreaterThan preGate
  split_ifs <;> simp_all

theorem ltc_no_pre (v : Version) (c : constraint) :
    constraintLessThan true v c ≠ CRes.preErr := by
  unfold constraintLessThan preGate
  split_ifs <;> simp_all

theorem gte_no_pre (v : Version) (c : constraint) :
    constraintGreaterThanEqual true v c ≠ CRes.preErr := by
  unfold constraintGreaterThanEqual preGate
  split_ifs <;> simp_all

theorem lte_no_pre (v : Version) (c : constraint) :
    constraintLessThanEqual true v c ≠ CRes.preErr := by
  unfold constraintLessThanEqual preGate
  split_ifs <;> simp_all

theorem toe_no_pre (v : Version) (c : constraint) :
    constraintTildeOrEqual true v c ≠ CRes.preErr := by
  have ht := tilde_no_pre v c
  unfold constraintTildeOrEqual preGate
  split_ifs <;> simp_all

theorem caret_no_pre (v : Version) (c : constraint) :
    constraintCaret true v c ≠ CRes.preErr := by
  unfold constraintCaret preGate
  split_ifs <;> simp_all

theorem checkAtom_true_no_pre (c : constraint) (v : Version) :
    checkAtom true c v ≠ CRes.preErr := by
  unfold checkAtom
  split_ifs
  · exact toe_no_pre v c
  · exact notEqual_no_pre v c
  · exact gtc_no_pre v c
  · exact ltc_no_pre v c
  · exact gte_no_pre v c
  · exact lte_no_pre v c
  · exact tilde_no_pre v c
  · exact caret_no_pre v c
  · simp

theorem checkAtom_false_pre (c : constraint) (v : Version)
    (hcp : c.con.pre = "") (hvp : v.pre ≠ "")
    (hop : c.origfunc ∈ (["", "=", ">", "<", ">=", "=>", "<=", "=<", "~", "~>", "^"] : List String) ∨
      (c.origfunc = "!=" ∧ c.dirty = true)) :
    checkAtom false c v = CRes.preErr := by
  have hg : preGate false v c := ⟨hvp, hcp, rfl⟩
  rcases hop with hlist | ⟨hne, hd⟩
  · simp only [List.mem_cons, List.mem_singleton, List.not_mem_nil, or_false] at hlist
    rcases hlist with h | h | h | h | h | h | h | h | h | h | h <;>
      unfold checkAtom <;> simp +decide [h] <;>
      first
      | (unfold constraintTildeOrEqual; rw [if_pos hg])
      | (unfold constraintGreaterThan; rw [if_pos hg])
      | (unfold constraintLessThan; rw [if_pos hg])
      | (unfold constraintGreaterThanEqual; rw [if_pos hg])
      | (unfold constraintLessThanEqual; rw [if_pos hg])
      | (unfold constraintTilde; rw [if_pos hg])
      | (unfold constraintCaret; rw [if_pos hg])
  · unfold checkAtom
    simp +decide [hne]
    unfold constraintNotEqual
    rw [if_pos hd, if_pos hg]

theorem satisfiesAll_lift (v : Version) (cs : List constraint)
    (hex : ∃ c ∈ cs, c.con.pre ≠ "")
    (hnum : ∀ c ∈ cs, satisfiesNumeric c v = true) :
    satisfiesAll v cs false = true := by
  unfold satisfiesAll
  have hany : (cs.any fun c => decide (c.con.pre ≠ "")) = true := by
    rw [List.any_eq_true]
    obtain ⟨c0, hc0, hp0⟩ := hex
    exact ⟨c0, hc0, by simpa using hp0⟩
  rw [List.all_eq_true]
  intro c hc
  rw [hany]
  simp [hnum c hc]

/-- Claim C2 (code evaluated at the failing input): with equal numeric
triples, the source compares the prerelease identifiers "5" and "10" with
Go string order, so 1.0.0-5 sorts above 1.0.0-10 (the claim's numeric
comparison demands the opposite), and a version with the extra non-numeric
identifier "alpha" sorts below the shorter one (the claim demands shorter
below longer). -/
theorem compare_prerelease_lexicographic :
    Version.Compare (mkVer 1 0 0 "5" "1.0.0-5") (mkVer 1 0 0 "10" "1.0.0-10") = 1 ∧
    Version.Compare (mkVer 1 0 0 "beta" "1.0.0-beta")
      (mkVer 1 0 0 "beta.alpha" "1.0.0-beta.alpha") = 1 := by
  decide

/-- Claim C7 (code evaluated at the failing input): the caret check for
^0.0.3 (pivot major 0, minor 0, explicit patch) admits 0.1.3, which is not
equal to the pivot — the code only compares the patch segment, contradicting
its own doc comment `^0.0.3 --> >=0.0.3 <0.0.4`. -/
theorem caret_0_0_3_admits_0_1_3 :
    checkAtom false atomCaret003 (mkVer 0 1 3 "" "0.1.3") = CRes.ok ∧
    (mkVer 0 1 3 "" "0.1.3").minor ≠ atomCaret003.con.minor := by
  decide

/-- Claim C8 (counterexample): IncPatch of range.go does not leave the
receiver's fields unchanged — on 1.2.3-beta it clears pre and bumps patch. -/
theorem incpatch_mutates_receiver_counterexample :
    Version.IncPatchMut (mkVer 1 2 3 "beta" "1.2.3-beta") ≠ mkVer 1 2 3 "beta" "1.2.3-beta" := by
  decide

/-- Claim C8 (amended): the mutating incrementers of range.go rewrite the
receiver in place — IncPatch clears prerelease and adds 1 to patch,
IncMinor additionally zeroes patch, IncMajor zeroes minor and patch —
leaving the untouched numeric fields, metadata and original intact (each
returns the constant true in the source). -/
theorem incrementers_mutate_in_place (v : Version) :
    Version.IncPatchMut v = ⟨v.major, v.minor, v.patch + 1, "", v.metadata, v.original⟩ ∧
    Version.IncMinorMut v = ⟨v.major, v.minor + 1, 0, "", v.metadata, v.original⟩ ∧
    Version.IncMajorMut v = ⟨v.major + 1, 0, 0, "", v.metadata, v.original⟩ :=
  ⟨rfl, rfl, rfl⟩

/-- Claim C9: during Intersection, when one group is pure-exact and the
other contains range atoms, an exact version with a prerelease is retained
by filterExact whenever at least one pivot of the range group carries a
prerelease and every relational atom of the group is numerically satisfied:
satisfiesAll lifts the prerelease gate for the whole group even with
include_prerelease unset on both operands (incPre = false). -/
theorem satisfiesAll_prerelease_exception (e : constraint) (exacts cs : List constraint)
    (he : e ∈ exacts) (hpre : e.con.pre ≠ "")
    (hex : ∃ c ∈ cs, c.con.pre ≠ "")
    (hnum : ∀ c ∈ cs, satisfiesNumeric c e.con = true) :
    satisfiesAll e.con cs false = true ∧ e ∈ filterExact exacts cs false := by
  have hall := satisfiesAll_lift e.con cs hex hnum
  refine ⟨hall, ?_⟩
  unfold filterExact
  exact List.mem_filter.mpr ⟨he, hall⟩

/-- Witness for C9: the exact 1.0.6-1 against the range group
[>=1.0.3-0, <1.0.6] (the repository's own test case) is retained. -/
theorem satisfiesAll_prerelease_exception_witness :
    atomBare1061.con.pre ≠ "" ∧
    satisfiesAll atomBare1061.con [atomGe1030, atomLt106] false = true ∧
    atomBare1061 ∈ filterExact [atomBare1061] [atomGe1030, atomLt106] false :=
  ⟨by decide,
   (satisfiesAll_prerelease_exception atomBare1061 [atomBare1061] [atomGe1030, atomLt106]
     (by decide) (by decide) ⟨atomGe1030, by decide, by decide⟩ (by decide)).1,
   (satisfiesAll_prerelease_exception atomBare1061 [atomBare1061] [atomGe1030, atomLt106]
     (by decide) (by decide) ⟨atomGe1030, by decide, by decide⟩ (by decide)).2⟩

/-- Claim C10: Intersection is none exactly when an operand is none; two
non-none operands always produce a result; and when the result has no
groups it is the empty expression — it renders as "" and admits no
version. -/
theorem intersection_nil_and_empty_expression :
    (∀ a b : Option Constraints, Intersection a b = none ↔ a = none ∨ b = none) ∧
    (∀ a b : Constraints, ∃ r, Intersection (some a) (some b) = some r) ∧
    (∀ (a b r : Constraints), Intersection (some a) (some b) = some r →
      r.constraints = [] → r.String = "" ∧ ∀ v, r.Check v = false) := by
  refine ⟨?_, intersection_some, ?_⟩
  · intro a b
    constructor
    · intro h
      cases a with
      | none => exact Or.inl rfl
      | some a =>
        cases b with
        | none => exact Or.inr rfl
        | some b =>
          obtain ⟨r, hr⟩ := intersection_some a b
          rw [hr] at h
          exact absurd h (by simp)
    · rintro (rfl | rfl)
      · rfl
      · cases a <;> rfl
  · intro a b r _ hempty
    constructor
    · unfold Constraints.String
      rw [hempty]
      rfl
    · intro v
      unfold Constraints.Check
      rw [hempty]
      rfl

/-- Witness for C10: >=2.0.0 intersected with <1.0.0 yields the empty
expression, which renders as "" and rejects 1.0.0. -/
theorem intersection_nil_and_empty_expression_witness :
    Intersection (some ⟨[[atomGe200]], false⟩) (some ⟨[[atomLt100]], false⟩) =
      some ⟨[], false⟩ ∧
    (⟨[], false⟩ : Constraints).String = "" ∧
    (⟨[], false⟩ : Constraints).Check (mkVer 1 0 0 "" "1.0.0") = false :=
  ⟨by decide,
   (intersection_nil_and_empty_expression.2.2 ⟨[[atomGe200]], false⟩ ⟨[[atomLt100]], false⟩
     ⟨[], false⟩ (by decide) rfl).1,
   (intersection_nil_and_empty_expression.2.2 ⟨[[atomGe200]], false⟩ ⟨[[atomLt100]], false⟩
     ⟨[], false⟩ (by decide) rfl).2 (mkVer 1 0 0 "" "1.0.0")⟩

/-- Claim C5: IsSubset returns true exactly when both operands are non-nil
and the intersection renders to the same string as the canonicalised sub;
a nil operand on either side yields false. -/
theorem isSubset_iff_render (sub sup : Option Constraints) :
    IsSubset sub sup = true ↔
      ∃ a b r, sub = some a ∧ sup = some b ∧ Intersection sub sup = some r ∧
        r.String = (canonicalise a).String := by
  cases sub with
  | none =>
    unfold IsSubset
    simp
  | some a =>
    cases sup with
    | none =>
      unfold IsSubset
      simp
    | some b =>
      obtain ⟨r, hr⟩ := intersection_some a b
      have hs : IsSubset (some a) (some b) =
          (((Intersection (some a) (some b)).getD ⟨[], false⟩).String ==
            (canonicalise a).String) := rfl
      constructor
      · intro h
        rw [hs, hr, Option.getD_some, beq_iff_eq] at h
        exact ⟨a, b, r, rfl, rfl, hr, h⟩
      · rintro ⟨a2, b2, r2, ha2, hb2, hr2, h⟩
        rw [hs, hr, Option.getD_some, beq_iff_eq]
        injection ha2 with ha2'
        subst ha2'
        injection hb2 with hb2'
        subst hb2'
        rw [hr] at hr2
        injection hr2 with hr2'
        subst hr2'
        exact h

/-- Claim C1 (counterexample): for the parsed forms of a = "~0.0.0",
b = ">=0.0.0 <0.1.0" and v = "1.0.0": check(a, v) holds via the ~0.0.0
special case, is_subset(a, b) holds because canonicalisation expands
~0.0.0 to >=0.0.0 <0.1.0, yet check(b, v) fails — refuting the claim as
stated. -/
theorem subset_check_counterexample :
    Constraints.Check ⟨[[atomTilde000]], false⟩ (mkVer 1 0 0 "" "1.0.0") = true ∧
    IsSubset (some ⟨[[atomTilde000]], false⟩) (some ⟨[[atomGe000, atomLt010]], false⟩) = true ∧
    Constraints.Check ⟨[[atomGe000, atomLt010]], false⟩ (mkVer 1 0 0 "" "1.0.0") = false := by
  decide

/-- Witness for C1 (amended): a = ">=2.0.0", b = ">=1.0.0", v = "3.0.0";
check(a, v) and is_subset(a, b) hold, and the theorem yields check(b, v). -/
theorem subset_check_single_witness :
    relAtom atomGe200 ∧ relAtom atomGe100 ∧ (mkVer 3 0 0 "" "3.0.0").pre = "" ∧
    Constraints.Check ⟨[[atomGe200]], false⟩ (mkVer 3 0 0 "" "3.0.0") = true ∧
    IsSubset (some ⟨[[atomGe200]], false⟩) (some ⟨[[atomGe100]], false⟩) = true ∧
    Constraints.Check ⟨[[atomGe100]], false⟩ (mkVer 3 0 0 "" "3.0.0") = true :=
  ⟨by decide, by decide, by decide, by decide, by decide,
   subset_check_single atomGe200 atomGe100 false false (mkVer 3 0 0 "" "3.0.0")
     (by decide) (by decide) (by decide) (by decide) (by decide) (by decide)⟩

/-- Claim C3 (counterexample): the parsed form of "1.2.3 1.2.3" (one group
with the same bare atom twice) admits 1.2.3, but canonicalisation's
simplify drops both exact atoms from the two-atom group, the group becomes
empty and invalid, and the canonical expression admits nothing. -/
theorem canonicalise_check_counterexample :
    Constraints.Check ⟨[[atomBare123, atomBare123]], false⟩ (mkVer 1 2 3 "" "1.2.3") = true ∧
    Constraints.Check (canonicalise ⟨[[atomBare123, atomBare123]], false⟩)
      (mkVer 1 2 3 "" "1.2.3") = false := by
  decide

/-- Claim C3 (amended): canonicalisation preserves membership for
expressions with include_prerelease unset (the parser default) whose groups
are single atoms that the expander passes through unchanged (operators
other than caret / tilde, with non-dirty bare, equals and <= atoms), as
long as groups that render alike are equal (true of parser output, whose
atoms are determined by their text): such groups survive expansion,
simplification and the validity filter unchanged, and deduplication and
sorting do not change the disjunction's members. -/
theorem canonicalise_preserves_check_passthrough (cs : Constraints) (v : Version)
    (hflag : cs.IncludePrerelease = false)
    (hsingle : ∀ g ∈ cs.constraints, g.length = 1 ∧ ∀ c ∈ g, passThrough c)
    (hinj : ∀ g ∈ cs.constraints, ∀ g2 ∈ cs.constraints, groupKey g = groupKey g2 → g = g2) :
    Constraints.Check (canonicalise cs) v = Constraints.Check cs v := by
  obtain ⟨l, f⟩ := cs
  simp only at hflag hsingle hinj
  subst hflag
  have hcl : ∀ g ∈ l, simplify (expand g) = g ∧ isValid g = true := by
    intro g hg
    obtain ⟨hlen, hpass⟩ := hsingle g hg
    obtain ⟨c, rfl⟩ := List.length_eq_one.mp hlen
    have hpc : passThrough c := hpass c (by simp)
    have he : expand [c] = [c] := expand_pass_list [c] (by
      intro x hx
      rw [List.mem_singleton.mp hx]
      exact hpc)
    refine ⟨?_, isValid_single_any c⟩
    rw [he]
    unfold simplify
    simp
  have hcanon : canonicalise ⟨l, false⟩ = ⟨sortByKey (canonGroups l []), false⟩ := rfl
  rw [hcanon]
  apply bool_eq_of_iff
  rw [check_iff_exists, check_iff_exists]
  constructor
  · rintro ⟨g, hg, hall⟩
    have hg2 : g ∈ canonGroups l [] := ((sortByKey_perm (canonGroups l [])).mem_iff).mp hg
    exact ⟨g, canonGroups_mem_of l hcl [] g hg2, hall⟩
  · rintro ⟨g, hg, hall⟩
    rcases canonGroups_exists l hcl hinj g hg [] with h1 | h1
    · exact ⟨g, ((sortByKey_perm (canonGroups l [])).mem_iff).mpr h1, hall⟩
    · simp at h1

/-- Witness for C3 (amended): the two-group expression "<1.0.0 || >=2.0.0"
checks 0.5.0 identically before and after canonicalisation (which reorders
the groups). -/
theorem canonicalise_preserves_check_witness :
    (⟨[[atomLt100], [atomGe200]], false⟩ : Constraints).IncludePrerelease = false ∧
    Constraints.Check (canonicalise ⟨[[atomLt100], [atomGe200]], false⟩)
        (mkVer 0 5 0 "" "0.5.0") =
      Constraints.Check ⟨[[atomLt100], [atomGe200]], false⟩ (mkVer 0 5 0 "" "0.5.0") :=
  ⟨rfl,
   canonicalise_preserves_check_passthrough ⟨[[atomLt100], [atomGe200]], false⟩
     (mkVer 0 5 0 "" "0.5.0") rfl (by decide) (by decide)⟩

/-- Claim C4 (counterexample): rendered Intersection is not commutative —
the compare-equal exacts 1.0.0+build1 and 1.0.0+build2 keep the left
operand's atom — and Intersection(a, a) does not render like
canonicalise(a) for a = "!=1.2.3", whose self-intersection collapses to the
empty expression while canonicalise keeps the atom. -/
theorem intersection_comm_idem_counterexample :
    ((Intersection (some ⟨[[atomExactB1]], false⟩) (some ⟨[[atomExactB2]], false⟩)).getD
        ⟨[], false⟩).String ≠
      ((Intersection (some ⟨[[atomExactB2]], false⟩) (some ⟨[[atomExactB1]], false⟩)).getD
        ⟨[], false⟩).String ∧
    ((Intersection (some ⟨[[atomNe123]], false⟩) (some ⟨[[atomNe123]], false⟩)).getD
        ⟨[], false⟩).String ≠
      (canonicalise ⟨[[atomNe123]], false⟩).String := by
  decide

/-- Claim C4 (amended): for single-atom expressions whose atoms are
non-dirty relational bounds with prerelease-free, metadata-free pivots
rendered canonically (orig = pivot.String), rendered Intersection is
commutative, and Intersection(a, a) renders exactly like canonicalise(a). -/
theorem intersection_comm_idem_amended (ca cb : constraint) (ia ib : Bool)
    (ha : canonAtom ca) (hb : canonAtom cb) :
    ((Intersection (some ⟨[[ca]], ia⟩) (some ⟨[[cb]], ib⟩)).getD ⟨[], false⟩).String =
      ((Intersection (some ⟨[[cb]], ib⟩) (some ⟨[[ca]], ia⟩)).getD ⟨[], false⟩).String ∧
    ((Intersection (some ⟨[[ca]], ia⟩) (some ⟨[[ca]], ia⟩)).getD ⟨[], false⟩).String =
      (canonicalise ⟨[[ca]], ia⟩).String :=
  ⟨intersection_comm_single ca cb ia ib ha hb, intersection_idem_single ca ia ha.1⟩

/-- Witness for C4 (amended) at a = ">=1.0.0", b = "<2.0.0". -/
theorem intersection_comm_idem_witness :
    canonAtom atomGe100 ∧ canonAtom atomLt200 ∧
    ((Intersection (some ⟨[[atomGe100]], false⟩) (some ⟨[[atomLt200]], false⟩)).getD
        ⟨[], false⟩).String =
      ((Intersection (some ⟨[[atomLt200]], false⟩) (some ⟨[[atomGe100]], false⟩)).getD
        ⟨[], false⟩).String ∧
    ((Intersection (some ⟨[[atomGe100]], false⟩) (some ⟨[[atomGe100]], false⟩)).getD
        ⟨[], false⟩).String = (canonicalise ⟨[[atomGe100]], false⟩).String :=
  ⟨by decide, by decide,
   (intersection_comm_idem_amended atomGe100 atomLt200 false false (by decide) (by decide)).1,
   (intersection_comm_idem_amended atomGe100 atomLt200 false false (by decide) (by decide)).2⟩

/-- Claim C6 (counterexample): a non-dirty != atom applies no prerelease
gate — with include_prerelease false, pivot 1.2.3 (no prerelease) and the
prerelease version 1.5.0-beta, the check succeeds instead of failing with
the gate error. -/
theorem notEqual_skips_gate_counterexample :
    checkAtom false atomNe123 (mkVer 1 5 0 "beta" "1.5.0-beta") = CRes.ok := by
  decide

/-- Claim C6 (amended): for every atom whose operator is one of the gated
ones (every operator except a non-dirty !=) with a prerelease-free pivot,
and every prerelease version, the check fails with the prerelease-gate
error exactly when include_prerelease is false; and with
include_prerelease true the caret atom of "^1.x" admits 1.1.1-beta1 (its
numeric predicate holds). -/
theorem prerelease_gate_exactly_when_excluded (c : constraint) (v : Version) (incPre : Bool)
    (hop : c.origfunc ∈ (["", "=", ">", "<", ">=", "=>", "<=", "=<", "~", "~>", "^"] : List String) ∨
      (c.origfunc = "!=" ∧ c.dirty = true))
    (hcp : c.con.pre = "") (hvp : v.pre ≠ "") :
    (checkAtom incPre c v = CRes.preErr ↔ incPre = false) ∧
    checkAtom true atomCaret1x (mkVer 1 1 1 "beta1" "1.1.1-beta1") = CRes.ok := by
  refine ⟨?_, by decide⟩
  cases incPre
  · simp [checkAtom_false_pre c v hcp hvp hop]
  · simp [checkAtom_true_no_pre c v]

/-- Witness for C6 (amended) at the ">=1.0.0" atom and version
1.0.0-alpha: with the flag unset the gate fires. -/
theorem prerelease_gate_witness :
    atomGe100.con.pre = "" ∧ (mkVer 1 0 0 "alpha" "1.0.0-alpha").pre ≠ "" ∧
    (checkAtom false atomGe100 (mkVer 1 0 0 "alpha" "1.0.0-alpha") = CRes.preErr ↔
      false = false) ∧
    checkAtom true atomCaret1x (mkVer 1 1 1 "beta1" "1.1.1-beta1") = CRes.ok :=
  ⟨by decide, by decide,
   (prerelease_gate_exactly_when_excluded atomGe100 (mkVer 1 0 0 "alpha" "1.0.0-alpha") false
     (by decide) (by decide) (by decide)).1,
   (prerelease_gate_exactly_when_excluded atomGe100 (mkVer 1 0 0 "alpha" "1.0.0-alpha") false
     (by decide) (by decide) (by decide)).2⟩
